import Mathlib

/-!
Shallow embedding of the request persistence and analytics engine of the
service-center repository (src/src/database.py and src/src/algorithms.py),
together with theorems settling the frozen claims about it.

Modelling conventions:
* A stored date string is modelled by `DateStr`: either `valid dt`, standing
  for a string in the `"%Y-%m-%d %H:%M:%S"` format that `datetime.strptime`
  parses to the calendar point `dt`, or `malformed s`, standing for any other
  string, on which `strptime` raises.  `datetime` subtraction is modelled by
  the difference of epoch-second counts (`epochSeconds`, the standard
  proleptic-Gregorian civil-day formula), exactly the value
  `total_seconds()` returns for parsed timestamps.
* Python `round(x, 2)` is modelled on rationals by `round2`
  (round to the nearest multiple of 1/100).
* SQLite rows are Lean structures; `SELECT` result sets are lists in rowid
  order; `ORDER BY created_date DESC` on the `"%Y-%m-%d %H:%M:%S"` TEXT
  column coincides with descending epoch-second order for every string the
  repository itself writes, and is modelled by a stable insertion sort on
  that key (`List.insertionSort`).
* A Python function body wrapped in `try: ... except: return default` is
  embedded as an `Except`-valued body plus a total wrapper returning the
  default on error.
-/

namespace SC

/-- A parsed calendar timestamp, as produced by
`datetime.strptime(s, "%Y-%m-%d %H:%M:%S")`. -/
structure DateTime where
  year : Nat
  month : Nat
  day : Nat
  hour : Nat
  minute : Nat
  second : Nat
deriving DecidableEq, Repr

/-- Days since 1970-01-01 of a proleptic-Gregorian civil date (the standard
civil-from-days inverse used by `datetime.date.toordinal` up to an offset). -/
def daysFromCivil (y m d : Int) : Int :=
  let yAdj : Int := if m ≤ 2 then y - 1 else y
  let era : Int := (if 0 ≤ yAdj then yAdj else yAdj - 399) / 400
  let yoe : Int := yAdj - era * 400
  let mp : Int := (m + 9) % 12
  let doy : Int := (153 * mp + 2) / 5 + d - 1
  let doe : Int := yoe * 365 + yoe / 4 - yoe / 100 + doy
  era * 146097 + doe - 719468

/-- Seconds since the epoch of a `DateTime`; differences of this quantity are
exactly what `(b - a).total_seconds()` yields on parsed timestamps. -/
def epochSeconds (t : DateTime) : Int :=
  daysFromCivil t.year t.month t.day * 86400
    + t.hour * 3600 + t.minute * 60 + t.second

/-- A date string as stored in a TEXT column: either one that parses in the
`"%Y-%m-%d %H:%M:%S"` format, or any other string (on which `strptime`
raises `ValueError`). -/
inductive DateStr where
  | valid : DateTime → DateStr
  | malformed : String → DateStr
deriving DecidableEq, Repr

/-- Embedding of `datetime.strptime(s, "%Y-%m-%d %H:%M:%S")`: the parsed
timestamp, or `none` standing for the raised `ValueError`. -/
def parseDate : DateStr → Option DateTime
  | DateStr.valid t => some t
  | DateStr.malformed _ => none

/-- Python truthiness of an optional stored string (None and "" are falsy). -/
def strTruthy : Option String → Bool
  | none => false
  | some s => !(s == "")

/-- Python truthiness of an optional stored date string: `None` and the empty
string are falsy, every other string (well-formed or not) is truthy. -/
def dateTruthy : Option DateStr → Bool
  | none => false
  | some (DateStr.valid _) => true
  | some (DateStr.malformed s) => !(s == "")

/-- Embedding of Python `round(x, 2)` on exact rationals: round to the
nearest multiple of 1/100. -/
def round2 (q : ℚ) : ℚ := (round (q * 100) : ℚ) / 100

/-- Embedding of `statistics.mean` on an exact list of rationals. -/
def listMean (l : List ℚ) : ℚ := l.sum / l.length

/-- A row of the `requests` table, fields in column order
(id, created_date, device_type, device_model, problem_description,
client_name, client_phone, status, master_name, deadline, completion_date,
updated_date). -/
structure Req where
  id : Nat
  created_date : DateStr
  device_type : String
  device_model : String
  problem_description : String
  client_name : String
  client_phone : String
  status : String
  master_name : Option String
  deadline : Option DateStr
  completion_date : Option DateStr
  updated_date : Option DateStr
deriving DecidableEq, Repr

/-- A row of the `comments` table. -/
structure Comment where
  id : Nat
  request_id : Nat
  comment_text : String
  parts_ordered : Option String
  added_date : DateStr
  author : String
deriving DecidableEq, Repr

/-- The persisted state read by the analytics engine. -/
structure DB where
  requests : List Req
  comments : List Comment
deriving DecidableEq, Repr

/-- Hours between two date strings, `(completed - created).total_seconds()/3600`,
failing (like `strptime`) when either string is malformed. -/
def hoursBetween (created completed : DateStr) : Except Unit ℚ := do
  let c ← match parseDate created with
    | some t => Except.ok t
    | none => Except.error ()
  let f ← match parseDate completed with
    | some t => Except.ok t
    | none => Except.error ()
  pure (((epochSeconds f - epochSeconds c : Int) : ℚ) / 3600)

/-- Body of `calculate_average_repair_time` (src/src/algorithms.py:23-54):
select the rows with a non-NULL completion_date, parse both dates of each row
(raising on the first malformed one), and return the mean duration in hours
rounded to 2 decimals; 0.0 when no row qualifies. -/
def averageRepairTimeBody (reqs : List Req) : Except Unit ℚ := do
  let completedRows := reqs.filter (fun r => r.completion_date.isSome)
  if completedRows.isEmpty then
    pure 0
  else do
    let repairTimes ← completedRows.mapM
      (fun r => hoursBetween r.created_date (r.completion_date.getD r.created_date))
    pure (round2 (listMean repairTimes))

/-- `calculate_average_repair_time` (src/src/algorithms.py:10-58): the body
under the catch-all `except` that returns 0.0 on any raised error. -/
def calculate_average_repair_time (reqs : List Req) : ℚ :=
  match averageRepairTimeBody reqs with
  | Except.ok v => v
  | Except.error _ => 0

/-- Status list of a request set together with per-status counts, ordered by
count descending — the result set of
`SELECT status, COUNT(*) FROM requests GROUP BY status ORDER BY COUNT(*) DESC`
(src/src/algorithms.py:184-189).  Group keys are materialised in first
occurrence order and then sorted by the count key, descending. -/
def statusCounts (reqs : List Req) : List (String × Nat) :=
  let sts := reqs.map Req.status
  List.insertionSort (fun a b => b.2 ≤ a.2)
    (sts.dedup.map (fun s => (s, sts.count s)))

/-- `calculate_status_distribution` (src/src/algorithms.py:160-203): total
count, early empty return, percentage `round(count / total * 100, 2)` per
status group.  The body has no date parsing, so its catch-all `except`
branch is unreachable in this embedding. -/
def calculate_status_distribution (reqs : List Req) : List (String × Nat × ℚ) :=
  let total := reqs.length
  if total = 0 then []
  else (statusCounts reqs).map
    (fun p => (p.1, p.2, round2 ((p.2 : ℚ) / (total : ℚ) * 100)))

/-- A date-only argument to `get_performance_metrics`, i.e. a well-formed
`"YYYY-MM-DD"` string (the documented argument format). -/
structure DateOnly where
  year : Nat
  month : Nat
  day : Nat
deriving DecidableEq, Repr

/-- Sort/filter key of a stored `created_date` TEXT value.  SQLite compares
the raw text; on strings in the `"%Y-%m-%d %H:%M:%S"` format — the only kind
the repository itself ever writes into `created_date` — that order coincides
with epoch-second order, which is the key used here.  A malformed string is
given a fixed arbitrary key; no claim exercises that corner. -/
def dateKey : DateStr → Int
  | DateStr.valid t => epochSeconds t
  | DateStr.malformed _ => 0

/-- The date filter of `get_performance_metrics`
(src/src/algorithms.py:231-240): inclusive `BETWEEN "sd 00:00:00" AND
"ed 23:59:59"` when both bounds are given, one-sided otherwise, everything
when neither is given. -/
def inWindow (sd ed : Option DateOnly) (r : Req) : Bool :=
  let k := dateKey r.created_date
  match sd, ed with
  | some s, some e =>
      decide (epochSeconds ⟨s.year, s.month, s.day, 0, 0, 0⟩ ≤ k
        ∧ k ≤ epochSeconds ⟨e.year, e.month, e.day, 23, 59, 59⟩)
  | some s, none => decide (epochSeconds ⟨s.year, s.month, s.day, 0, 0, 0⟩ ≤ k)
  | none, some e => decide (k ≤ epochSeconds ⟨e.year, e.month, e.day, 23, 59, 59⟩)
  | none, none => true

/-- The request rows matched by the date filter of `get_performance_metrics`,
in rowid order. -/
def filteredRequests (db : DB) (sd ed : Option DateOnly) : List Req :=
  db.requests.filter (inWindow sd ed)

/-- Per-master accumulator of the master-efficiency loop: the keys
`completed` and `total` are always present; `efficiency` is the key added by
the second loop (src/src/algorithms.py:292-296). -/
structure MasterStats where
  completed : Nat
  total : Nat
  efficiency : Option ℚ
deriving DecidableEq, Repr

/-- A value of the result dictionary of `get_performance_metrics`. -/
inductive MetricValue where
  | num : ℚ → MetricValue
  | masters : List (String × MasterStats) → MetricValue
deriving DecidableEq, Repr

/-- One step of the master-efficiency accumulation
(src/src/algorithms.py:283-289) on an insertion-ordered association list
(the Python dict): create the entry on first sight, then bump `total` and,
when the completion test holds, `completed`. -/
def bumpMaster : List (String × MasterStats) → String → Bool → List (String × MasterStats)
  | [], m, c => [(m, ⟨if c then 1 else 0, 1, none⟩)]
  | (k, st) :: rest, m, c =>
      if k = m then
        (k, ⟨st.completed + (if c then 1 else 0), st.total + 1, st.efficiency⟩) :: rest
      else (k, st) :: bumpMaster rest m c

/-- The master-efficiency aggregation of `get_performance_metrics`
(src/src/algorithms.py:279-296).  `req[8]` is `master_name` and rows with a
falsy master are skipped; the completion test compares `req[5]` — which in
the column order of the `requests` table is `client_name`, although the
inline comment in the source says `# status` — against the literal
"Завершена". -/
def masterEfficiency (reqs : List Req) : List (String × MasterStats) :=
  let grouped := reqs.foldl
    (fun acc r =>
      match r.master_name with
      | none => acc
      | some m => if m == "" then acc else bumpMaster acc m (r.client_name == "Завершена"))
    []
  grouped.map (fun p =>
    if 0 < p.2.total
    then (p.1, ⟨p.2.completed, p.2.total,
      some (round2 ((p.2.completed : ℚ) / (p.2.total : ℚ) * 100))⟩)
    else p)

/-- The per-request durations of the average-processing-time loop of
`get_performance_metrics` (src/src/algorithms.py:266-273).  The loop guard
is the truthiness of `req[9]` — which in the column order of the `requests`
table is `deadline`, although the inline comment in the source says
`# completion_date` — and the parsed values are `req[1]` (created_date) and
`req[9]`; the first malformed string raises out of the loop. -/
def perfProcessingTimes (reqs : List Req) : Except Unit (List ℚ) :=
  (reqs.filter (fun r => dateTruthy r.deadline)).mapM
    (fun r => hoursBetween r.created_date (r.deadline.getD r.created_date))

/-- The `requests_per_day` metric (src/src/algorithms.py:257-264): when both
bounds are given, the request count divided by the inclusive day span and
rounded to 2 decimals (a zero span raises `ZeroDivisionError`); otherwise
the raw request count. -/
def requestsPerDay (sd ed : Option DateOnly) (total : Nat) : Except Unit ℚ :=
  match sd, ed with
  | some s, some e =>
      let days : Int :=
        daysFromCivil e.year e.month e.day - daysFromCivil s.year s.month s.day + 1
      if days = 0 then Except.error ()
      else Except.ok (round2 ((total : ℚ) / (days : ℚ)))
  | _, _ => Except.ok (total : ℚ)

/-- Character count of the `parts_ordered` column summed over every comment
row: `SELECT SUM(LENGTH(parts_ordered)) FROM comments` with NULL rows
skipped by `SUM` and an all-NULL sum coerced to 0 by `or 0`
(src/src/algorithms.py:299-300). -/
def partsLenSum (comments : List Comment) : Nat :=
  (comments.map (fun c =>
    match c.parts_ordered with
    | some s => s.length
    | none => 0)).sum

/-- The dictionary returned by `get_performance_metrics` when the date
filter matches no request (src/src/algorithms.py:245-252).  Note the third
key is `average_processing_time`, not the `average_processing_time_hours`
used on the non-empty path. -/
def emptyMetrics : List (String × MetricValue) :=
  [("total_requests", MetricValue.num 0),
   ("requests_per_day", MetricValue.num 0),
   ("average_processing_time", MetricValue.num 0),
   ("master_efficiency", MetricValue.masters []),
   ("total_parts_cost", MetricValue.num 0)]

/-- Body of `get_performance_metrics` (src/src/algorithms.py:224-310),
before the catch-all `except`: filter, early empty return, then
requests-per-day (first raise point), processing times (second raise
point), master efficiency, and the parts-cost query over all comments. -/
def getPerformanceMetricsBody (db : DB) (sd ed : Option DateOnly) :
    Except Unit (List (String × MetricValue)) :=
  if (filteredRequests db sd ed).isEmpty then Except.ok emptyMetrics
  else
    match requestsPerDay sd ed (filteredRequests db sd ed).length,
        perfProcessingTimes (filteredRequests db sd ed) with
    | Except.ok rpd, Except.ok times =>
        Except.ok
          [("total_requests", MetricValue.num ((filteredRequests db sd ed).length : ℚ)),
           ("requests_per_day", MetricValue.num rpd),
           ("average_processing_time_hours",
             MetricValue.num (if times.isEmpty then 0 else round2 (listMean times))),
           ("master_efficiency", MetricValue.masters (masterEfficiency (filteredRequests db sd ed))),
           ("total_parts_cost", MetricValue.num ((partsLenSum db.comments : ℚ) * 10))]
    | Except.error e, _ => Except.error e
    | _, Except.error e => Except.error e

/-- `get_performance_metrics` (src/src/algorithms.py:205-314): the body
under the catch-all `except` that returns the empty dict on any raised
error. -/
def get_performance_metrics (db : DB) (sd ed : Option DateOnly) :
    List (String × MetricValue) :=
  match getPerformanceMetricsBody db sd ed with
  | Except.ok v => v
  | Except.error _ => []

/-- Per-device accumulator of the grouping loop of
`calculate_request_statistics_by_device` (src/src/algorithms.py:102-108):
the dict value holding total, completed, repair_times and the
insertion-ordered problems dict. -/
structure DeviceAcc where
  total : Nat
  completed : Nat
  repair_times : List ℚ
  problems : List (String × Nat)
deriving DecidableEq, Repr

/-- Create-if-absent then update of one device's accumulator in the
insertion-ordered `device_stats` dict (src/src/algorithms.py:102-111). -/
def updateAssoc : List (String × DeviceAcc) → String → (DeviceAcc → DeviceAcc) →
    List (String × DeviceAcc)
  | [], dev, f => [(dev, f ⟨0, 0, [], []⟩)]
  | (k, v) :: rest, dev, f =>
      if k = dev then (k, f v) :: rest else (k, v) :: updateAssoc rest dev f

/-- One increment of the per-device problems dict
(src/src/algorithms.py:113-117): bump an existing problem count or append
the problem with count 1. -/
def bumpProblem : List (String × Nat) → String → List (String × Nat)
  | [], p => [(p, 1)]
  | (k, n) :: rest, p =>
      if k = p then (k, n + 1) :: rest else (k, n) :: bumpProblem rest p

/-- The `max(problems.items(), key=count)` step
(src/src/algorithms.py:134-138): the first problem with the highest count in
dict insertion order, or the "Нет данных" sentinel when the dict is empty
(Python `max` keeps the earliest maximal element on ties). -/
def mostCommonProblem : List (String × Nat) → String
  | [] => "Нет данных"
  | p :: rest => (rest.foldl (fun best q => if best.2 < q.2 then q else best) p).1

/-- The per-device result record of `calculate_request_statistics_by_device`
(src/src/algorithms.py:145-152). -/
structure DeviceStats where
  total_requests : Nat
  completed_requests : Nat
  average_repair_time_hours : ℚ
  most_common_problem : String
  completion_rate : ℚ
deriving DecidableEq, Repr

/-- Final per-device statistics (src/src/algorithms.py:130-152): rounded
mean of the collected repair times (0.0 when none), the most common
problem, and completed/total×100 rounded to 2 decimals. -/
def finalizeDevice (st : DeviceAcc) : DeviceStats :=
  { total_requests := st.total
    completed_requests := st.completed
    average_repair_time_hours :=
      if st.repair_times.isEmpty then 0 else round2 (listMean st.repair_times)
    most_common_problem := mostCommonProblem st.problems
    completion_rate :=
      if 0 < st.total then round2 ((st.completed : ℚ) / (st.total : ℚ) * 100) else 0 }

/-- One iteration of the grouping loop of
`calculate_request_statistics_by_device` (src/src/algorithms.py:95-128):
bump total and the problems dict, then — when status is "Завершена" and the
stored completion string is truthy — parse both dates (the raise point,
src/src/algorithms.py:121-122) and record the duration. -/
def deviceStep (acc : List (String × DeviceAcc)) (r : Req) :
    Except Unit (List (String × DeviceAcc)) :=
  let acc1 := updateAssoc acc r.device_type (fun st =>
    { st with total := st.total + 1
              problems := bumpProblem st.problems r.problem_description })
  if r.status == "Завершена" && dateTruthy r.completion_date then do
    let hours ← hoursBetween r.created_date (r.completion_date.getD r.created_date)
    pure (updateAssoc acc1 r.device_type (fun st =>
      { st with completed := st.completed + 1
                repair_times := st.repair_times ++ [hours] }))
  else
    pure acc1

/-- Body of `calculate_request_statistics_by_device`
(src/src/algorithms.py:75-154), before the catch-all `except`: rows arrive
ordered by device_type (`ORDER BY device_type`, a stable sort on the TEXT
column), are folded through the grouping loop — whose date parsing can
raise — and the accumulators are then finalized. -/
def deviceStatsBody (reqs : List Req) : Except Unit (List (String × DeviceStats)) := do
  let sorted := List.insertionSort (fun a b : Req => a.device_type ≤ b.device_type) reqs
  let acc ← sorted.foldlM deviceStep []
  pure (acc.map (fun p => (p.1, finalizeDevice p.2)))

/-- `calculate_request_statistics_by_device` (src/src/algorithms.py:60-158):
the body under the catch-all `except` that returns the empty dict on any
raised error. -/
def calculate_request_statistics_by_device (reqs : List Req) :
    List (String × DeviceStats) :=
  match deviceStatsBody reqs with
  | Except.ok v => v
  | Except.error _ => []

/-- The row `Database.add_request` inserts: `created_date = updated_date =
now` (a well-formed strftime string), status "Новая", no master and no
completion_date; AUTOINCREMENT assigns the next rowid, which — since no
operation modelled here ever deletes a request — is the current row count
plus one. -/
def newRequest (db : DB) (now : DateTime)
    (device_type device_model problem_description client_name client_phone : String)
    (deadline : Option DateStr) : Req :=
  { id := db.requests.length + 1
    created_date := DateStr.valid now
    device_type := device_type
    device_model := device_model
    problem_description := problem_description
    client_name := client_name
    client_phone := client_phone
    status := "Новая"
    master_name := none
    deadline := deadline
    completion_date := none
    updated_date := some (DateStr.valid now) }

/-- `Database.add_request` (src/src/database.py:107-155): insert the new
row and return its generated id. -/
def add_request (db : DB) (now : DateTime)
    (device_type device_model problem_description client_name client_phone : String)
    (deadline : Option DateStr) : DB × Nat :=
  ({ db with requests := db.requests ++
      [newRequest db now device_type device_model problem_description
        client_name client_phone deadline] },
   db.requests.length + 1)

/-- The row transformation of `Database.update_request_status`
(src/src/database.py:182-197): set status and updated_date, additionally
set completion_date to now exactly when the new status is "Готова к выдаче"
or "Завершена", and overwrite master_name only when a truthy (non-None,
non-empty) master is supplied. -/
def applyStatusUpdate (now : DateTime) (new_status : String)
    (master : Option String) (r : Req) : Req :=
  let r1 := { r with status := new_status, updated_date := some (DateStr.valid now) }
  let r2 :=
    if new_status == "Готова к выдаче" || new_status == "Завершена"
    then { r1 with completion_date := some (DateStr.valid now) }
    else r1
  if strTruthy master then { r2 with master_name := master } else r2

/-- `Database.update_request_status` (src/src/database.py:173-202): apply
the row transformation to the row matching id (a no-op when none matches)
and return `rowcount > 0`, i.e. whether some row matched. -/
def update_request_status (db : DB) (now : DateTime) (rid : Nat)
    (new_status : String) (master : Option String) : DB × Bool :=
  let updated := db.requests.map
    (fun r => if r.id = rid then applyStatusUpdate now new_status master r else r)
  ({ db with requests := updated }, db.requests.any (fun r => r.id == rid))

/-- `Database.extend_deadline` (src/src/database.py:204-223): overwrite
deadline and updated_date on the matching row; return whether a row
matched. -/
def extend_deadline (db : DB) (now : DateTime) (rid : Nat) (nd : DateStr) :
    DB × Bool :=
  let updated := db.requests.map
    (fun r => if r.id = rid then
      { r with deadline := some nd, updated_date := some (DateStr.valid now) }
    else r)
  ({ db with requests := updated }, db.requests.any (fun r => r.id == rid))

/-- `Database.add_comment` (src/src/database.py:229-261): insert a comment
row; a `request_id` that violates the foreign-key constraint rolls the
insert back and reports `False` instead of raising. -/
def add_comment (db : DB) (now : DateTime) (rid : Nat) (comment_text : String)
    (parts_ordered : Option String) (author : String) : DB × Bool :=
  if db.requests.any (fun r => r.id == rid) then
    ({ db with comments := db.comments ++
        [{ id := db.comments.length + 1
           request_id := rid
           comment_text := comment_text
           parts_ordered := parts_ordered
           added_date := DateStr.valid now
           author := author }] },
     true)
  else (db, false)

/-- ASCII-only case folding: the folding SQLite applies in its default
`LIKE`, which is case-insensitive for A-Z/a-z and case-sensitive for every
other character. -/
def foldCaseA (c : Char) : Char :=
  if 65 ≤ c.toNat ∧ c.toNat ≤ 90 then Char.ofNat (c.toNat + 32) else c

/-- SQLite default `LIKE` pattern matching, fuelled so that the recursion
is structural: `%` matches any character sequence, `_` matches any single
character, any other pattern character matches a text character equal to it
up to ASCII case folding.  Every recursive call shrinks
`pattern.length + text.length`, so any fuel above that sum is enough. -/
def likeMatchF : Nat → List Char → List Char → Bool
  | 0, _, _ => false
  | _ + 1, [], [] => true
  | _ + 1, [], _ :: _ => false
  | fuel + 1, p :: ps, s =>
      if p = '%' then
        likeMatchF fuel ps s ||
          (match s with
           | [] => false
           | _ :: srest => likeMatchF fuel (p :: ps) srest)
      else
        match s with
        | [] => false
        | c :: srest =>
            if p = '_' then likeMatchF fuel ps srest
            else foldCaseA p == foldCaseA c && likeMatchF fuel ps srest

/-- SQLite default `LIKE` matching of a whole pattern against a whole
text, with always-sufficient fuel. -/
def likeMatch (p s : List Char) : Bool := likeMatchF (p.length + s.length + 1) p s

/-- The WHERE clause of `Database.search_requests`
(src/src/database.py:272-280): `LIKE '%term%'` against the stringified id,
client_name, client_phone or device_model, OR across the four columns. -/
def likeFields (term : String) (r : Req) : Bool :=
  let pat := ('%' :: term.data) ++ ['%']
  likeMatch pat (toString r.id).data || likeMatch pat r.client_name.data ||
    likeMatch pat r.client_phone.data || likeMatch pat r.device_model.data

/-- `Database.search_requests` (src/src/database.py:267-282): the matching
rows ordered by `created_date` descending (`dateKey` order; see its
docstring for why this models the TEXT comparison). -/
def search_requests (db : DB) (term : String) : List Req :=
  List.insertionSort (fun a b => dateKey b.created_date ≤ dateKey a.created_date)
    (db.requests.filter (likeFields term))

/-- Whether the character list `t` starts the character list `s`. -/
def startsWithCh : List Char → List Char → Bool
  | [], _ => true
  | _ :: _, [] => false
  | c :: t, d :: s => c == d && startsWithCh t s

/-- Whether the character list `t` occurs contiguously inside `s`. -/
def occursIn : List Char → List Char → Bool
  | t, [] => t.isEmpty
  | t, c :: s => startsWithCh t (c :: s) || occursIn t s

/-- Modelled from the words of the search claim, for comparison with
`search_requests`: the term occurs as a literal substring of the
stringified id, client_name, client_phone or device_model. -/
def specSearchMatch (term : String) (r : Req) : Bool :=
  occursIn term.data (toString r.id).data || occursIn term.data r.client_name.data ||
    occursIn term.data r.client_phone.data || occursIn term.data r.device_model.data

/-- A repository operation, carrying the wall-clock instant at which it is
invoked (the `datetime.now()` each Python operation stamps into its
strftime strings). -/
inductive Op where
  | addReq (now : DateTime)
      (device_type device_model problem_description client_name client_phone : String)
      (deadline : Option DateStr)
  | updStatus (now : DateTime) (rid : Nat) (new_status : String) (master : Option String)
  | extDeadline (now : DateTime) (rid : Nat) (nd : DateStr)
  | addCom (now : DateTime) (rid : Nat) (comment_text : String)
      (parts_ordered : Option String) (author : String)
deriving DecidableEq, Repr

/-- The wall-clock instant of an operation. -/
def Op.time : Op → DateTime
  | Op.addReq t _ _ _ _ _ _ => t
  | Op.updStatus t _ _ _ => t
  | Op.extDeadline t _ _ => t
  | Op.addCom t _ _ _ _ => t

/-- State transition of one repository operation. -/
def applyOp (db : DB) : Op → DB
  | Op.addReq t a b c d e f => (add_request db t a b c d e f).1
  | Op.updStatus t rid s m => (update_request_status db t rid s m).1
  | Op.extDeadline t rid nd => (extend_deadline db t rid nd).1
  | Op.addCom t rid x p a => (add_comment db t rid x p a).1

/-- The empty store created by `_initialize_database`. -/
def emptyDB : DB := ⟨[], []⟩

/-- The store after a sequence of repository operations from the empty
store. -/
def runOps (ops : List Op) : DB := ops.foldl applyOp emptyDB

/-- Whether a status value triggers the completion_date stamp in
`update_request_status`. -/
def completingStatus (s : String) : Bool :=
  s == "Готова к выдаче" || s == "Завершена"

/-- Helper of `setsCompletion`: scans a suffix of the trace, `n` requests
having been created before it, looking for a status update that stamps
completion_date on request `i` (the update must target an already-existing
row to match anything). -/
def setsCompletionAux : List Op → Nat → Nat → Bool
  | [], _, _ => false
  | Op.addReq _ _ _ _ _ _ _ :: rest, n, i => setsCompletionAux rest (n + 1) i
  | Op.updStatus _ rid s _ :: rest, n, i =>
      (rid == i && decide (i ≤ n) && completingStatus s) || setsCompletionAux rest n i
  | Op.extDeadline _ _ _ :: rest, n, i => setsCompletionAux rest n i
  | Op.addCom _ _ _ _ _ :: rest, n, i => setsCompletionAux rest n i

/-- Whether a trace from the empty store contains an update that stamps
completion_date on request `i`: an `update_request_status` call targeting
row `i` with status "Готова к выдаче" or "Завершена" at a point where row
`i` already exists. -/
def setsCompletion (ops : List Op) (i : Nat) : Bool := setsCompletionAux ops 0 i

/-- Number of `add_request` operations in a trace. -/
def countAdds : List Op → Nat
  | [] => 0
  | Op.addReq _ _ _ _ _ _ _ :: rest => countAdds rest + 1
  | _ :: rest => countAdds rest

/-- The wall-clock instants of a trace are nondecreasing (epoch-second
order), as they are for any trace produced by successive `datetime.now()`
calls. -/
def opsTimesSorted (ops : List Op) : Prop :=
  List.Pairwise (fun a b => epochSeconds (Op.time a) ≤ epochSeconds (Op.time b)) ops

instance (ops : List Op) : Decidable (opsTimesSorted ops) :=
  List.instDecidablePairwise ops

/-- Duration in hours of a request whose stored dates are well-formed, the
quantity the specification averages; 0 on a malformed or absent date. -/
def specHours (r : Req) : ℚ :=
  match parseDate r.created_date, r.completion_date.bind parseDate with
  | some c, some f => ((epochSeconds f - epochSeconds c : Int) : ℚ) / 3600
  | _, _ => 0

/-- Concrete fixture: creation instant 2024-01-01 10:00:00. -/
def dtCreated : DateTime := ⟨2024, 1, 1, 10, 0, 0⟩

/-- Concrete fixture: completion instant 2024-01-02 15:00:00 (29 hours
after `dtCreated`). -/
def dtDone : DateTime := ⟨2024, 1, 2, 15, 0, 0⟩

/-- Concrete fixture: a completed request with well-formed dates, 29 hours
from creation to completion. -/
def reqDone : Req :=
  { id := 1
    created_date := DateStr.valid dtCreated
    device_type := "Холодильник"
    device_model := "LG"
    problem_description := "Не морозит"
    client_name := "Иванов"
    client_phone := "5551234"
    status := "Завершена"
    master_name := some "Петров"
    deadline := none
    completion_date := some (DateStr.valid dtDone)
    updated_date := some (DateStr.valid dtDone) }

/-- Concrete fixture: a request whose stored completion_date is a string
the `"%Y-%m-%d %H:%M:%S"` parse rejects. -/
def reqBadDate : Req :=
  { id := 2
    created_date := DateStr.valid dtCreated
    device_type := "Телевизор"
    device_model := "Samsung"
    problem_description := "Нет изображения"
    client_name := "Петрова"
    client_phone := "5559876"
    status := "Завершена"
    master_name := some "Сидоров"
    deadline := none
    completion_date := some (DateStr.malformed "02.01.2024 15:00")
    updated_date := none }

/-- Concrete fixture: a store holding just `reqDone` and no comments. -/
def dbOne : DB := ⟨[reqDone], []⟩

/-- Concrete fixture: a request whose stored deadline is a date-only string
that the `"%Y-%m-%d %H:%M:%S"` parse rejects. -/
def reqBadDeadline : Req :=
  { reqDone with deadline := some (DateStr.malformed "2024-06-01") }

/-- Concrete fixture: a store whose only request has an unparsable
deadline string. -/
def dbBadDeadline : DB := ⟨[reqBadDeadline], []⟩

/-- Concrete fixture: a comment whose parts_ordered has 3 characters. -/
def comOne : Comment :=
  { id := 1
    request_id := 1
    comment_text := "Заказаны детали"
    parts_ordered := some "abc"
    added_date := DateStr.valid dtDone
    author := "Петров" }

/-- Concrete fixture: a store holding `reqDone` and one comment. -/
def dbOneCom : DB := ⟨[reqDone], [comOne]⟩

/-- Concrete fixture: three requests with pairwise distinct statuses. -/
def reqsThree : List Req :=
  [{ reqDone with id := 1, status := "Новая" },
   { reqDone with id := 2, status := "В процессе" },
   { reqDone with id := 3, status := "Завершена" }]

/-- Concrete fixture: a trace that creates one request and then completes
it, reproducing the repair-time scenario of the specification; running it
yields exactly `dbOne.requests`. -/
def ops0 : List Op :=
  [Op.addReq dtCreated "Холодильник" "LG" "Не морозит" "Иванов" "5551234" none,
   Op.updStatus dtDone 1 "Завершена" (some "Петров")]

/-- Concrete fixture: window start 2024-01-01. -/
def winStart : DateOnly := ⟨2024, 1, 1⟩

/-- Concrete fixture: window end 2024-12-31. -/
def winEnd : DateOnly := ⟨2024, 12, 31⟩

instance : IsTrans Req (fun a b => dateKey b.created_date ≤ dateKey a.created_date) :=
  ⟨fun _ _ _ h1 h2 => le_trans h2 h1⟩

instance : IsTotal Req (fun a b => dateKey b.created_date ≤ dateKey a.created_date) :=
  ⟨fun a b => le_total (dateKey b.created_date) (dateKey a.created_date)⟩

instance : IsTrans (String × Nat) (fun a b => b.2 ≤ a.2) :=
  ⟨fun _ _ _ h1 h2 => le_trans h2 h1⟩

instance : IsTotal (String × Nat) (fun a b => b.2 ≤ a.2) :=
  ⟨fun a b => le_total b.2 a.2⟩

theorem exceptBindOk {α β : Type} (v : α) (f : α → Except Unit β) :
    (Except.ok v >>= f) = f v := rfl

theorem exceptBindErr {α β : Type} (f : α → Except Unit β) :
    ((Except.error () : Except Unit α) >>= f) = Except.error () := rfl

theorem mapM_eq_map_of_ok {α β : Type} (f : α → Except Unit β) (g : α → β) :
    ∀ l : List α, (∀ x ∈ l, f x = Except.ok (g x)) →
      List.mapM f l = Except.ok (l.map g) := by
  intro l
  induction l with
  | nil => intro _; rfl
  | cons y ys ih =>
      intro h
      rw [List.mapM_cons, h y (List.mem_cons_self y ys),
        ih (fun x hx => h x (List.mem_cons_of_mem y hx))]
      rfl

theorem mapM_error_of_mem {α β : Type} (f : α → Except Unit β) :
    ∀ (l : List α) (x : α), x ∈ l → f x = Except.error () →
      List.mapM f l = (Except.error () : Except Unit (List β)) := by
  intro l
  induction l with
  | nil => intro x hx _; exact absurd hx (List.not_mem_nil x)
  | cons y ys ih =>
      intro x hx hfx
      rw [List.mapM_cons]
      rcases List.mem_cons.mp hx with h1 | h2
      · subst h1; rw [hfx]; rfl
      · cases hy : f y with
        | error e => cases e; rfl
        | ok v => rw [exceptBindOk, ih x h2 hfx]; rfl

theorem hoursBetween_valid (c f : DateTime) :
    hoursBetween (DateStr.valid c) (DateStr.valid f)
      = Except.ok (((epochSeconds f - epochSeconds c : Int) : ℚ) / 3600) := rfl

theorem round2_eq (q : ℚ) (n : ℤ) (h1 : (n : ℚ) ≤ q * 100 + 1 / 2)
    (h2 : q * 100 + 1 / 2 < n + 1) : round2 q = (n : ℚ) / 100 := by
  have hf : ⌊q * 100 + 1 / 2⌋ = n := Int.floor_eq_iff.mpr ⟨h1, h2⟩
  rw [round2, round_eq, hf]

theorem eval_avg_reqDone : calculate_average_repair_time [reqDone] = 29 := by
  have hq : ((epochSeconds dtDone - epochSeconds dtCreated : Int) : ℚ) / 3600 = 29 := by
    norm_num [epochSeconds, dtDone, dtCreated, daysFromCivil]
  have hm : List.mapM
        (fun r => hoursBetween r.created_date (r.completion_date.getD r.created_date))
        [reqDone]
      = Except.ok [((epochSeconds dtDone - epochSeconds dtCreated : Int) : ℚ) / 3600] := by
    refine mapM_eq_map_of_ok _
      (fun _ => ((epochSeconds dtDone - epochSeconds dtCreated : Int) : ℚ) / 3600) _ ?_
    intro x hx
    rw [List.mem_singleton] at hx
    subst hx
    rfl
  have hsplit : averageRepairTimeBody [reqDone]
      = (List.mapM
          (fun r => hoursBetween r.created_date (r.completion_date.getD r.created_date))
          [reqDone]) >>= (fun ts => pure (round2 (listMean ts))) := rfl
  have hb : calculate_average_repair_time [reqDone] = round2 (listMean [(29 : ℚ)]) := by
    simp only [calculate_average_repair_time]
    rw [hsplit, hm, hq]
    rfl
  rw [hb, round2_eq (listMean [(29 : ℚ)]) 2900 (by norm_num [listMean]) (by norm_num [listMean])]
  norm_num

/-- C1: the claim reads `average_processing_time_hours` as the rounded mean
of (completion_date − created_date) in hours over the filtered requests
with a non-null completion_date — the same computation as
`calculate_average_repair_time` on that set.  The code instead iterates on
`req[9]`, which in the column order of the `requests` table is the
`deadline` column (its inline comment says `# completion_date`): on a store
whose only request is completed 29 hours after creation but has a NULL
deadline, the metric is 0 while the claimed computation yields 29. -/
theorem C1_processing_time_uses_deadline :
    (get_performance_metrics dbOne none none).lookup "average_processing_time_hours"
        = some (MetricValue.num 0)
    ∧ calculate_average_repair_time dbOne.requests = 29
    ∧ (0 : ℚ) ≠ 29 := by
  refine ⟨?_, eval_avg_reqDone, by norm_num⟩
  simp [get_performance_metrics, getPerformanceMetricsBody, filteredRequests, inWindow,
    dbOne, reqDone, requestsPerDay, perfProcessingTimes, dateTruthy, List.lookup]

/-- C2: the claim counts a master's request as completed when its status
equals "Завершена".  The code compares `req[5]`, which in the column order
of the `requests` table is `client_name` (its inline comment says
`# status`): on a store whose only request has master "Петров" and status
"Завершена", the reported efficiency entry is completed = 0 of total = 1
with efficiency 0, while the claim demands completed = 1. -/
theorem C2_efficiency_uses_client_name :
    reqDone.status = "Завершена"
    ∧ strTruthy reqDone.master_name = true
    ∧ (get_performance_metrics dbOne none none).lookup "master_efficiency"
        = some (MetricValue.masters [("Петров", ⟨0, 1, some 0⟩)]) := by
  refine ⟨rfl, rfl, ?_⟩
  have h0 : round2 (((0 : ℕ) : ℚ) / ((1 : ℕ) : ℚ) * 100) = 0 := by
    rw [round2_eq _ 0 (by norm_num) (by norm_num)]
    norm_num
  have hme : masterEfficiency [reqDone]
      = [("Петров", ⟨0, 1, some (round2 (((0 : ℕ) : ℚ) / ((1 : ℕ) : ℚ) * 100))⟩)] := rfl
  have hx : (get_performance_metrics dbOne none none).lookup "master_efficiency"
      = some (MetricValue.masters (masterEfficiency [reqDone])) := rfl
  rw [hx, hme, h0]

theorem eval_avg_withBad : calculate_average_repair_time [reqDone, reqBadDate] = 0 := by
  have hm : List.mapM
        (fun r => hoursBetween r.created_date (r.completion_date.getD r.created_date))
        [reqDone, reqBadDate]
      = Except.error () :=
    mapM_error_of_mem _ _ reqBadDate (by simp) rfl
  have hsplit : averageRepairTimeBody [reqDone, reqBadDate]
      = (List.mapM
          (fun r => hoursBetween r.created_date (r.completion_date.getD r.created_date))
          [reqDone, reqBadDate]) >>= (fun ts => pure (round2 (listMean ts))) := rfl
  simp only [calculate_average_repair_time]
  rw [hsplit, hm]
  rfl

/-- C3 counterexample: on a store with one well-formed completed request
(29 hours) and one request whose completion_date string does not parse, the
claim says `average_repair_time` returns the mean over the well-formed
requests, 29.0; the code returns 0.0, because the `ValueError` raised
inside the loop is caught by the function-level `except`, aborting the
whole aggregation. -/
theorem C3_counterexample :
    calculate_average_repair_time [reqDone, reqBadDate] = 0
    ∧ calculate_average_repair_time [reqDone] = 29
    ∧ (0 : ℚ) ≠ 29 := by
  refine ⟨eval_avg_withBad, eval_avg_reqDone, by norm_num⟩

/-- C4 counterexample: on an empty store (so the filtered set is empty),
the dictionary returned by `get_performance_metrics` has no key
`average_processing_time_hours`: the zero entry sits under the key
`average_processing_time`, so the empty-set keys differ from the non-empty
ones, contradicting the claim. -/
theorem C4_counterexample :
    (get_performance_metrics emptyDB none none).lookup "average_processing_time_hours"
        = none
    ∧ (get_performance_metrics emptyDB none none).lookup "average_processing_time"
        = some (MetricValue.num 0) := by
  refine ⟨by decide, by decide⟩

theorem avgBody_split (reqs : List Req) :
    averageRepairTimeBody reqs =
      if (reqs.filter (fun r => r.completion_date.isSome)).isEmpty then Except.ok 0
      else (List.mapM
          (fun r => hoursBetween r.created_date (r.completion_date.getD r.created_date))
          (reqs.filter (fun r => r.completion_date.isSome)))
        >>= (fun ts => pure (round2 (listMean ts))) := by
  simp only [averageRepairTimeBody]
  cases (reqs.filter (fun r => r.completion_date.isSome)).isEmpty <;> rfl

/-- C4 (amended): each of the four analytics operations swallows every
raised fault into its zero/empty default instead of propagating it —
`calculate_average_repair_time` returns 0.0 when its body raises,
`calculate_request_statistics_by_device` returns {} when its body raises
(its date parsing at src/src/algorithms.py:121-122 is the raise point),
`calculate_status_distribution` parses no dates and returns [] on the
empty store (its catch can only be reached by a storage-level fault,
outside this embedding), and `get_performance_metrics` returns {} when its
body raises; on an empty filtered set `get_performance_metrics` returns
the zero-valued dictionary whose keys are total_requests,
requests_per_day, average_processing_time (not
average_processing_time_hours as on the non-empty path),
master_efficiency and total_parts_cost. -/
theorem C4_defaults_swallowed (db : DB) (sd ed : Option DateOnly) :
    (filteredRequests db sd ed = [] →
      get_performance_metrics db sd ed =
        [("total_requests", MetricValue.num 0),
         ("requests_per_day", MetricValue.num 0),
         ("average_processing_time", MetricValue.num 0),
         ("master_efficiency", MetricValue.masters []),
         ("total_parts_cost", MetricValue.num 0)])
    ∧ (∀ e, getPerformanceMetricsBody db sd ed = Except.error e →
        get_performance_metrics db sd ed = [])
    ∧ (∀ reqs : List Req, ∀ e, averageRepairTimeBody reqs = Except.error e →
        calculate_average_repair_time reqs = 0)
    ∧ (∀ reqs : List Req, ∀ e, deviceStatsBody reqs = Except.error e →
        calculate_request_statistics_by_device reqs = [])
    ∧ calculate_status_distribution [] = [] := by
  refine ⟨?_, ?_, ?_, ?_, rfl⟩
  · intro h
    have hb : getPerformanceMetricsBody db sd ed = Except.ok emptyMetrics := by
      simp only [getPerformanceMetricsBody, h]
      rfl
    simp only [get_performance_metrics, hb]
    rfl
  · intro e he
    simp only [get_performance_metrics, he]
  · intro reqs e he
    simp only [calculate_average_repair_time, he]
  · intro reqs e he
    simp only [calculate_request_statistics_by_device, he]

/-- C4 witness: the empty store has an empty filtered set and the metrics
dictionary on it carries the five zero-valued entries with the
`average_processing_time` key; and each raise point is exercised — an
unparsable deadline makes the metrics body raise and the function return
{}, and an unparsable completion_date makes the repair-time and
device-statistics bodies raise and those functions return their 0.0 / {}
defaults. -/
theorem C4_witness :
    (filteredRequests emptyDB none none = []
      ∧ get_performance_metrics emptyDB none none =
          [("total_requests", MetricValue.num 0),
           ("requests_per_day", MetricValue.num 0),
           ("average_processing_time", MetricValue.num 0),
           ("master_efficiency", MetricValue.masters []),
           ("total_parts_cost", MetricValue.num 0)])
    ∧ (getPerformanceMetricsBody dbBadDeadline none none = Except.error ()
      ∧ get_performance_metrics dbBadDeadline none none = [])
    ∧ (averageRepairTimeBody [reqBadDate] = Except.error ()
      ∧ calculate_average_repair_time [reqBadDate] = 0)
    ∧ (deviceStatsBody [reqBadDate] = Except.error ()
      ∧ calculate_request_statistics_by_device [reqBadDate] = []) := by
  have h := C4_defaults_swallowed emptyDB none none
  have h2 := C4_defaults_swallowed dbBadDeadline none none
  exact ⟨⟨rfl, h.1 rfl⟩, ⟨rfl, h2.2.1 () rfl⟩,
    ⟨rfl, h.2.2.1 [reqBadDate] () rfl⟩, ⟨rfl, h.2.2.2.1 [reqBadDate] () rfl⟩⟩

/-- C6: on a store whose stored timestamps are well-formed,
`calculate_average_repair_time` returns the rounded mean duration in hours
over exactly the requests with a non-null completion_date, and 0.0 when
there is none. -/
theorem C6_average_repair_time (reqs : List Req)
    (h : ∀ r ∈ reqs, r.completion_date.isSome = true →
      (∃ c, r.created_date = DateStr.valid c)
        ∧ ∃ f, r.completion_date = some (DateStr.valid f)) :
    calculate_average_repair_time reqs =
      if (reqs.filter (fun r => r.completion_date.isSome)).isEmpty then 0
      else round2 (listMean
        ((reqs.filter (fun r => r.completion_date.isSome)).map specHours)) := by
  cases hcase : (reqs.filter (fun r => r.completion_date.isSome)).isEmpty with
  | true =>
      have hb : averageRepairTimeBody reqs = Except.ok 0 := by
        rw [avgBody_split, hcase]
        rfl
      simp only [calculate_average_repair_time, hb, hcase, if_true]
  | false =>
      have hm : List.mapM
            (fun r => hoursBetween r.created_date (r.completion_date.getD r.created_date))
            (reqs.filter (fun r => r.completion_date.isSome))
          = Except.ok ((reqs.filter (fun r => r.completion_date.isSome)).map specHours) := by
        apply mapM_eq_map_of_ok
        intro x hx
        obtain ⟨hxm, hxs⟩ := List.mem_filter.mp hx
        obtain ⟨⟨c, hc⟩, ⟨f, hf⟩⟩ := h x hxm hxs
        rw [specHours, hc, hf]
        rfl
      have hb : averageRepairTimeBody reqs
          = Except.ok (round2 (listMean
              ((reqs.filter (fun r => r.completion_date.isSome)).map specHours))) := by
        rw [avgBody_split, hcase]
        simp only [Bool.false_eq_true, if_false]
        rw [hm]
        rfl
      simp only [calculate_average_repair_time, hb, hcase]
      rfl

/-- C6 witness: the single request created 2024-01-01 10:00:00 and
completed 2024-01-02 15:00:00 satisfies the well-formedness hypothesis, and
the average repair time over it is its 29-hour duration. -/
theorem C6_witness :
    (∀ r ∈ [reqDone], r.completion_date.isSome = true →
      (∃ c, r.created_date = DateStr.valid c)
        ∧ ∃ f, r.completion_date = some (DateStr.valid f))
    ∧ calculate_average_repair_time [reqDone] =
        (if ([reqDone].filter (fun r => r.completion_date.isSome)).isEmpty then 0
         else round2 (listMean
           (([reqDone].filter (fun r => r.completion_date.isSome)).map specHours)))
    ∧ calculate_average_repair_time [reqDone] = 29 := by
  have hh : ∀ r ∈ [reqDone], r.completion_date.isSome = true →
      (∃ c, r.created_date = DateStr.valid c)
        ∧ ∃ f, r.completion_date = some (DateStr.valid f) := by
    intro r hr _
    rw [List.mem_singleton] at hr
    subst hr
    exact ⟨⟨dtCreated, rfl⟩, ⟨dtDone, rfl⟩⟩
  exact ⟨hh, C6_average_repair_time [reqDone] hh, eval_avg_reqDone⟩

/-- C9 counterexample: `search_requests "_"` returns the sole stored
request even though "_" occurs as a substring of none of its stringified
id, client_name, client_phone or device_model — SQLite `LIKE` reads `_` as
a single-character wildcard, so the claimed for-every-term substring
semantics fails. -/
theorem C9_counterexample :
    search_requests dbOne "_" = [reqDone]
    ∧ specSearchMatch "_" reqDone = false := by
  refine ⟨by decide, by decide⟩

/-- C9 (amended): `search_requests` returns exactly the stored requests on
which the SQLite `LIKE` pattern `%term%` matches the stringified id,
client_name, client_phone or device_model (OR across the four columns) —
substring matching up to the ASCII case-insensitivity of `LIKE` and its
reading of `%` and `_` in the term as wildcards — ordered newest
created_date first. -/
theorem C9_search_like_semantics (db : DB) (term : String) :
    (∀ r, r ∈ search_requests db term ↔ r ∈ db.requests ∧ likeFields term r = true)
    ∧ List.Pairwise (fun a b => dateKey b.created_date ≤ dateKey a.created_date)
        (search_requests db term) := by
  constructor
  · intro r
    have hp := List.perm_insertionSort
      (fun a b : Req => dateKey b.created_date ≤ dateKey a.created_date)
      (db.requests.filter (likeFields term))
    rw [search_requests, hp.mem_iff]
    exact List.mem_filter
  · exact List.sorted_insertionSort
      (fun a b : Req => dateKey b.created_date ≤ dateKey a.created_date)
      (db.requests.filter (likeFields term))

theorem perfBody_cost (db : DB) (sd ed : Option DateOnly)
    (hne : filteredRequests db sd ed ≠ [])
    (hok : (getPerformanceMetricsBody db sd ed).isOk = true) :
    (get_performance_metrics db sd ed).lookup "total_parts_cost"
      = some (MetricValue.num ((partsLenSum db.comments : ℚ) * 10)) := by
  have hempty : (filteredRequests db sd ed).isEmpty = false := by
    cases hcase : (filteredRequests db sd ed).isEmpty
    · rfl
    · exact absurd (List.isEmpty_iff.mp hcase) hne
  simp only [get_performance_metrics]
  cases hbody : getPerformanceMetricsBody db sd ed with
  | error e =>
      rw [hbody] at hok
      simp [Except.isOk, Except.toBool] at hok
  | ok res =>
      simp only [getPerformanceMetricsBody, hempty, Bool.false_eq_true, if_false] at hbody
      cases h1 : requestsPerDay sd ed (filteredRequests db sd ed).length with
      | error e =>
          rw [h1] at hbody
          simp at hbody
      | ok rpd =>
          cases h2 : perfProcessingTimes (filteredRequests db sd ed) with
          | error e =>
              rw [h1, h2] at hbody
              simp at hbody
          | ok times =>
              rw [h1, h2] at hbody
              simp only [Except.ok.injEq] at hbody
              subst hbody
              rfl

/-- C10: `total_parts_cost` equals 10 times the character-length sum of
parts_ordered over all comments in the store, with NULL contributing 0, and
is therefore identical across two calls with different date windows over
the same store (whenever both windows match at least one request and both
computations complete). -/
theorem C10_parts_cost_filter_independent (db : DB) (sd ed sd2 ed2 : Option DateOnly)
    (hne : filteredRequests db sd ed ≠ []) (hne2 : filteredRequests db sd2 ed2 ≠ [])
    (hok : (getPerformanceMetricsBody db sd ed).isOk = true)
    (hok2 : (getPerformanceMetricsBody db sd2 ed2).isOk = true) :
    (get_performance_metrics db sd ed).lookup "total_parts_cost"
        = some (MetricValue.num (10 * (partsLenSum db.comments : ℚ)))
    ∧ (get_performance_metrics db sd ed).lookup "total_parts_cost"
        = (get_performance_metrics db sd2 ed2).lookup "total_parts_cost" := by
  have ha := perfBody_cost db sd ed hne hok
  have hb := perfBody_cost db sd2 ed2 hne2 hok2
  have hc : (partsLenSum db.comments : ℚ) * 10 = 10 * (partsLenSum db.comments : ℚ) :=
    mul_comm _ _
  constructor
  · rw [ha, hc]
  · rw [ha, hb]

/-- C10 witness: a store with one request and one 3-character parts comment
gives `total_parts_cost` 30 both unwindowed and under the 2024 calendar
window. -/
theorem C10_witness :
    filteredRequests dbOneCom none none ≠ []
    ∧ filteredRequests dbOneCom (some winStart) (some winEnd) ≠ []
    ∧ (getPerformanceMetricsBody dbOneCom none none).isOk = true
    ∧ (getPerformanceMetricsBody dbOneCom (some winStart) (some winEnd)).isOk = true
    ∧ (get_performance_metrics dbOneCom none none).lookup "total_parts_cost"
        = some (MetricValue.num (10 * (partsLenSum dbOneCom.comments : ℚ)))
    ∧ (get_performance_metrics dbOneCom none none).lookup "total_parts_cost"
        = (get_performance_metrics dbOneCom (some winStart) (some winEnd)).lookup
            "total_parts_cost" := by
  have h := C10_parts_cost_filter_independent dbOneCom none none (some winStart) (some winEnd)
    (by decide) (by decide) (by decide) (by decide)
  exact ⟨by decide, by decide, by decide, by decide, h.1, h.2⟩

/-- C3 (amended): a stored date string that fails to parse aborts the whole
`calculate_average_repair_time` aggregation — the function returns its zero
default 0.0 whenever any selected row (non-null completion_date) has a
malformed created_date or completion_date, instead of dropping only that
record. -/
theorem C3_malformed_aborts (reqs : List Req) (r : Req)
    (hr : r ∈ reqs) (hc : r.completion_date.isSome = true)
    (hbad : parseDate r.created_date = none
      ∨ ∃ s, r.completion_date = some s ∧ parseDate s = none) :
    calculate_average_repair_time reqs = 0 := by
  have hmem : r ∈ reqs.filter (fun r => r.completion_date.isSome) :=
    List.mem_filter.mpr ⟨hr, hc⟩
  have hfail : hoursBetween r.created_date (r.completion_date.getD r.created_date)
      = Except.error () := by
    rcases hbad with h1 | ⟨s, hs, hps⟩
    · rw [hoursBetween]
      rw [h1]
      rfl
    · rw [hoursBetween, hs]
      simp only [Option.getD_some]
      cases hp : parseDate r.created_date with
      | none => rfl
      | some c => rw [hps]; rfl
  have hm : List.mapM
        (fun r => hoursBetween r.created_date (r.completion_date.getD r.created_date))
        (reqs.filter (fun r => r.completion_date.isSome))
      = Except.error () :=
    mapM_error_of_mem _ _ r hmem hfail
  have hne : (reqs.filter (fun r => r.completion_date.isSome)).isEmpty = false := by
    cases hcase : (reqs.filter (fun r => r.completion_date.isSome)).isEmpty
    · rfl
    · rw [List.isEmpty_iff.mp hcase] at hmem
      exact absurd hmem (List.not_mem_nil r)
  have hb : averageRepairTimeBody reqs = Except.error () := by
    rw [avgBody_split, hne]
    simp only [Bool.false_eq_true, if_false]
    rw [hm]
    rfl
  simp only [calculate_average_repair_time, hb]

/-- C3 witness: the fixture store with one well-formed and one malformed
completion_date satisfies the hypotheses, and the aggregation collapses
to 0. -/
theorem C3_witness :
    reqBadDate ∈ [reqDone, reqBadDate]
    ∧ reqBadDate.completion_date.isSome = true
    ∧ (parseDate reqBadDate.created_date = none
        ∨ ∃ s, reqBadDate.completion_date = some s ∧ parseDate s = none)
    ∧ calculate_average_repair_time [reqDone, reqBadDate] = 0 := by
  have hbad : parseDate reqBadDate.created_date = none
      ∨ ∃ s, reqBadDate.completion_date = some s ∧ parseDate s = none :=
    Or.inr ⟨DateStr.malformed "02.01.2024 15:00", rfl, rfl⟩
  exact ⟨by decide, rfl, hbad,
    C3_malformed_aborts [reqDone, reqBadDate] reqBadDate (by decide) rfl hbad⟩

/-- C8: for every store, `update_request_status` reports whether a row
matched the id (False for a nonexistent id, without raising), rewrites
exactly the matching row, and the row rewrite sets the new status,
refreshes updated_date, stamps completion_date with now exactly when the
new status is "Готова к выдаче" or "Завершена" (overwriting any earlier
stamp, not preserving it), overwrites master_name only when a non-empty
master is supplied, and touches nothing else. -/
theorem C8_update_request_status (db : DB) (now : DateTime) (rid : Nat)
    (s : String) (m : Option String) :
    ((update_request_status db now rid s m).2 = true ↔ ∃ r ∈ db.requests, r.id = rid)
    ∧ (update_request_status db now rid s m).1.requests
        = db.requests.map (fun r => if r.id = rid then applyStatusUpdate now s m r else r)
    ∧ (∀ r : Req,
        (applyStatusUpdate now s m r).status = s
        ∧ (applyStatusUpdate now s m r).updated_date = some (DateStr.valid now)
        ∧ (applyStatusUpdate now s m r).completion_date =
            (if s = "Готова к выдаче" ∨ s = "Завершена" then some (DateStr.valid now)
             else r.completion_date)
        ∧ (applyStatusUpdate now s m r).master_name =
            (if strTruthy m then m else r.master_name)
        ∧ (applyStatusUpdate now s m r).created_date = r.created_date
        ∧ (applyStatusUpdate now s m r).deadline = r.deadline
        ∧ (applyStatusUpdate now s m r).id = r.id) := by
  refine ⟨?_, rfl, ?_⟩
  · simp [update_request_status, List.any_eq_true]
  · intro r
    by_cases hb : (s == "Готова к выдаче" || s == "Завершена") = true
    · have hbp : s = "Готова к выдаче" ∨ s = "Завершена" := by
        simpa using hb
      by_cases hm2 : strTruthy m = true
      · simp [applyStatusUpdate, hb, hm2, hbp]
      · simp [applyStatusUpdate, hb, hm2, hbp]
    · have hbp : ¬ (s = "Готова к выдаче" ∨ s = "Завершена") := by
        simpa using hb
      by_cases hm2 : strTruthy m = true
      · simp [applyStatusUpdate, hb, hm2, hbp]
      · simp [applyStatusUpdate, hb, hm2, hbp]

/-- C8 witness: on the fixture store, updating request 1 reports a matched
row. -/
theorem C8_witness :
    (update_request_status dbOne dtDone 1 "Завершена" none).2 = true :=
  (C8_update_request_status dbOne dtDone 1 "Завершена" none).1.mpr
    ⟨reqDone, by decide, rfl⟩

theorem round2_close (q : ℚ) : |round2 q - q| ≤ 1 / 200 := by
  have h := abs_sub_round (q * 100)
  have h2 : round2 q - q = ((round (q * 100) : ℚ) - q * 100) / 100 := by
    rw [round2]; ring
  rw [h2, abs_div, abs_of_pos (show (0 : ℚ) < 100 by norm_num), abs_sub_comm]
  linarith

theorem sum_round2_close :
    ∀ l : List ℚ, |(l.map round2).sum - l.sum| ≤ (l.length : ℚ) / 200 := by
  intro l
  induction l with
  | nil => simp
  | cons x xs ih =>
      simp only [List.map_cons, List.sum_cons, List.length_cons]
      have h1 := round2_close x
      have h2 : round2 x + (xs.map round2).sum - (x + xs.sum)
          = (round2 x - x) + ((xs.map round2).sum - xs.sum) := by ring
      rw [h2]
      calc |(round2 x - x) + ((xs.map round2).sum - xs.sum)|
          ≤ |round2 x - x| + |(xs.map round2).sum - xs.sum| := abs_add _ _
        _ ≤ 1 / 200 + (xs.length : ℚ) / 200 := add_le_add h1 ih
        _ = ((xs.length + 1 : ℕ) : ℚ) / 200 := by push_cast; ring

theorem sum_counts_cast (sts : List String) :
    (sts.dedup.map (fun s => ((sts.count s : ℕ) : ℚ))).sum = (sts.length : ℚ) := by
  have h := List.sum_map_count_dedup_eq_length sts
  have h2 : (((sts.dedup.map (fun s => sts.count s)).sum : ℕ) : ℚ)
      = ((sts.length : ℕ) : ℚ) := by
    exact_mod_cast congrArg (fun n : ℕ => (n : ℚ)) h
  rw [Nat.cast_list_sum, List.map_map] at h2
  exact h2

theorem statusCounts_perm (reqs : List Req) :
    List.Perm (statusCounts reqs)
      ((reqs.map Req.status).dedup.map
        (fun s => ((s, (reqs.map Req.status).count s) : String × Nat))) := by
  simp only [statusCounts]
  exact List.perm_insertionSort _ _

/-- C7: on a non-empty store, `calculate_status_distribution` returns one
(status, count, percentage) tuple per distinct status with
percentage = count/total×100 rounded to 2 decimals, sorted by count
descending, so the percentages sum to 100 up to the accumulated rounding
error (at most 1/200 per tuple); on an empty store it returns []. -/
theorem C7_status_distribution (reqs : List Req) :
    (reqs = [] → calculate_status_distribution reqs = [])
    ∧ (reqs ≠ [] →
        (∀ s c p, (s, c, p) ∈ calculate_status_distribution reqs →
            c = (reqs.map Req.status).count s
            ∧ p = round2 ((c : ℚ) / (reqs.length : ℚ) * 100)
            ∧ s ∈ reqs.map Req.status)
        ∧ (∀ s, s ∈ reqs.map Req.status →
            ∃ c p, (s, c, p) ∈ calculate_status_distribution reqs)
        ∧ ((calculate_status_distribution reqs).map (fun t => t.1)).Nodup
        ∧ List.Pairwise (fun a b => b.2.1 ≤ a.2.1) (calculate_status_distribution reqs)
        ∧ |((calculate_status_distribution reqs).map (fun t => t.2.2)).sum - 100|
            ≤ ((calculate_status_distribution reqs).length : ℚ) / 200) := by
  constructor
  · intro h
    subst h
    rfl
  · intro hne
    have htot : reqs.length ≠ 0 := by
      simpa [List.length_eq_zero] using hne
    have hD : calculate_status_distribution reqs
        = (statusCounts reqs).map
            (fun p => (p.1, p.2, round2 ((p.2 : ℚ) / (reqs.length : ℚ) * 100))) := by
      simp only [calculate_status_distribution, htot, if_false, if_neg]
    have hperm := statusCounts_perm reqs
    refine ⟨?_, ?_, ?_, ?_, ?_⟩
    · intro s c p hmem
      rw [hD] at hmem
      obtain ⟨q, hq, hfq⟩ := List.mem_map.mp hmem
      have hq2 := hperm.mem_iff.mp hq
      obtain ⟨s0, hs0, hqeq⟩ := List.mem_map.mp hq2
      subst hqeq
      simp only [Prod.mk.injEq] at hfq
      obtain ⟨hs, hc, hp⟩ := hfq
      subst hs
      subst hc
      subst hp
      exact ⟨rfl, rfl, List.mem_dedup.mp hs0⟩
    · intro s hs
      have hd : s ∈ (reqs.map Req.status).dedup := List.mem_dedup.mpr hs
      have h1 : ((s, (reqs.map Req.status).count s) : String × Nat)
          ∈ (reqs.map Req.status).dedup.map
              (fun s => ((s, (reqs.map Req.status).count s) : String × Nat)) :=
        List.mem_map_of_mem _ hd
      have h2 := hperm.mem_iff.mpr h1
      refine ⟨(reqs.map Req.status).count s,
        round2 ((((reqs.map Req.status).count s : ℕ) : ℚ) / (reqs.length : ℚ) * 100), ?_⟩
      rw [hD]
      exact List.mem_map_of_mem _ h2
    · rw [hD, List.map_map]
      have hkeys : List.Perm
          ((statusCounts reqs).map (fun q : String × Nat => q.1))
          (((reqs.map Req.status).dedup.map
            (fun s => ((s, (reqs.map Req.status).count s) : String × Nat))).map
              (fun q : String × Nat => q.1)) :=
        hperm.map _
      have hnd : (((reqs.map Req.status).dedup.map
          (fun s => ((s, (reqs.map Req.status).count s) : String × Nat))).map
            (fun q : String × Nat => q.1)).Nodup := by
        rw [List.map_map]
        have hcomp : ((fun q : String × Nat => q.1)
            ∘ fun s => ((s, (reqs.map Req.status).count s) : String × Nat))
            = fun s => s := rfl
        rw [hcomp, List.map_id']
        exact List.nodup_dedup _
      exact hkeys.symm.nodup hnd
    · rw [hD]
      have hsorted := List.sorted_insertionSort (fun a b : String × Nat => b.2 ≤ a.2)
        ((reqs.map Req.status).dedup.map
          (fun s => ((s, (reqs.map Req.status).count s) : String × Nat)))
      have hsc : List.Pairwise (fun a b : String × Nat => b.2 ≤ a.2) (statusCounts reqs) := by
        simp only [statusCounts]
        exact hsorted
      exact List.Pairwise.map _ (fun a b h => h) hsc
    · have hcast : ((reqs.length : ℕ) : ℚ) ≠ 0 := Nat.cast_ne_zero.mpr htot
      have hLsum : ((reqs.map Req.status).dedup.map
            (fun s => (((reqs.map Req.status).count s : ℕ) : ℚ)
              / (reqs.length : ℚ) * 100)).sum = 100 := by
        have hpt : ((reqs.map Req.status).dedup.map
              (fun s => (((reqs.map Req.status).count s : ℕ) : ℚ)
                / (reqs.length : ℚ) * 100)).sum
            = ((reqs.map Req.status).dedup.map
              (fun s => (((reqs.map Req.status).count s : ℕ) : ℚ)
                * (100 / (reqs.length : ℚ)))).sum := by
          congr 1
          apply List.map_congr_left
          intro a _
          ring
        rw [hpt, List.sum_map_mul_right, sum_counts_cast]
        field_simp
      have hbound := sum_round2_close
        ((reqs.map Req.status).dedup.map
          (fun s => (((reqs.map Req.status).count s : ℕ) : ℚ) / (reqs.length : ℚ) * 100))
      rw [hLsum, List.map_map, List.length_map] at hbound
      rw [hD, List.map_map, List.length_map]
      have hs1 : ((statusCounts reqs).map ((fun t : String × Nat × ℚ => t.2.2)
            ∘ (fun p : String × Nat =>
                (p.1, p.2, round2 ((p.2 : ℚ) / (reqs.length : ℚ) * 100))))).sum
          = (((reqs.map Req.status).dedup.map
              (fun s => ((s, (reqs.map Req.status).count s) : String × Nat))).map
                ((fun t : String × Nat × ℚ => t.2.2)
                  ∘ (fun p : String × Nat =>
                      (p.1, p.2, round2 ((p.2 : ℚ) / (reqs.length : ℚ) * 100))))).sum :=
        (hperm.map _).sum_eq
      rw [hs1, hperm.length_eq, List.map_map, List.length_map]
      exact hbound

/-- C7 witness: three requests with pairwise distinct statuses give the
specification scenario — three tuples, each with count 1 and percentage
33.33, keys distinct and the rounded percentages summing to within 3/200
of 100. -/
theorem C7_witness :
    reqsThree ≠ []
    ∧ ((calculate_status_distribution reqsThree).map (fun t => t.1)).Nodup
    ∧ |((calculate_status_distribution reqsThree).map (fun t => t.2.2)).sum - 100|
        ≤ ((calculate_status_distribution reqsThree).length : ℚ) / 200
    ∧ calculate_status_distribution reqsThree
        = [("Новая", 1, 3333 / 100), ("В процессе", 1, 3333 / 100),
           ("Завершена", 1, 3333 / 100)] := by
  have h := (C7_status_distribution reqsThree).2 (by decide)
  have h33 : round2 (((1 : ℕ) : ℚ) / ((3 : ℕ) : ℚ) * 100) = 3333 / 100 := by
    rw [round2_eq _ 3333 (by push_cast; norm_num) (by push_cast; norm_num)]
    norm_num
  have hev : calculate_status_distribution reqsThree
      = [("Новая", 1, round2 (((1 : ℕ) : ℚ) / ((3 : ℕ) : ℚ) * 100)),
         ("В процессе", 1, round2 (((1 : ℕ) : ℚ) / ((3 : ℕ) : ℚ) * 100)),
         ("Завершена", 1, round2 (((1 : ℕ) : ℚ) / ((3 : ℕ) : ℚ) * 100))] := rfl
  refine ⟨by decide, h.2.2.1, h.2.2.2.2, ?_⟩
  rw [hev, h33]

theorem countAdds_append (l1 l2 : List Op) :
    countAdds (l1 ++ l2) = countAdds l1 + countAdds l2 := by
  induction l1 with
  | nil => simp [countAdds]
  | cons op rest ih =>
      cases op <;> simp [countAdds, ih]
      all_goals omega

theorem setsCompletionAux_append (l1 l2 : List Op) :
    ∀ n i, setsCompletionAux (l1 ++ l2) n i
      = (setsCompletionAux l1 n i || setsCompletionAux l2 (n + countAdds l1) i) := by
  induction l1 with
  | nil => intro n i; simp [setsCompletionAux, countAdds]
  | cons op rest ih =>
      intro n i
      cases op with
      | addReq t a b c d e f =>
          simp only [List.cons_append, setsCompletionAux, countAdds, List.append_eq, ih]
          have harith : n + 1 + countAdds rest = n + (countAdds rest + 1) := by omega
          rw [harith]
      | updStatus t rid s m =>
          simp only [List.cons_append, setsCompletionAux, countAdds, List.append_eq, ih,
            Bool.or_assoc]
      | extDeadline t rid nd =>
          simp only [List.cons_append, setsCompletionAux, countAdds, List.append_eq, ih]
      | addCom t rid x p a =>
          simp only [List.cons_append, setsCompletionAux, countAdds, List.append_eq, ih]

theorem setsCompletionAux_false (l : List Op) :
    ∀ n i, n + countAdds l < i → setsCompletionAux l n i = false := by
  induction l with
  | nil => intro n i _; rfl
  | cons op rest ih =>
      intro n i h
      cases op with
      | addReq t a b c d e f =>
          refine ih (n + 1) i ?_
          simp only [countAdds] at h
          omega
      | updStatus t rid s m =>
          have h2 : setsCompletionAux rest n i = false := by
            refine ih n i ?_
            simp only [countAdds] at h
            omega
          have hni : ¬ i ≤ n := by
            simp only [countAdds] at h
            omega
          simp [setsCompletionAux, h2, hni]
      | extDeadline t rid nd =>
          refine ih n i ?_
          simp only [countAdds] at h
          omega
      | addCom t rid x p a =>
          refine ih n i ?_
          simp only [countAdds] at h
          omega

theorem runOps_concat (ops : List Op) (op : Op) :
    runOps (ops ++ [op]) = applyOp (runOps ops) op := by
  simp [runOps, List.foldl_append]

theorem applyOp_addReq_requests (db : DB) (t : DateTime)
    (a b c d e : String) (f : Option DateStr) :
    (applyOp db (Op.addReq t a b c d e f)).requests
      = db.requests ++ [newRequest db t a b c d e f] := rfl

theorem applyOp_updStatus_requests (db : DB) (t : DateTime) (rid : Nat)
    (s : String) (m : Option String) :
    (applyOp db (Op.updStatus t rid s m)).requests
      = db.requests.map
          (fun r => if r.id = rid then applyStatusUpdate t s m r else r) := rfl

theorem applyOp_extDeadline_requests (db : DB) (t : DateTime) (rid : Nat)
    (nd : DateStr) :
    (applyOp db (Op.extDeadline t rid nd)).requests
      = db.requests.map
          (fun r => if r.id = rid then
            { r with deadline := some nd, updated_date := some (DateStr.valid t) }
          else r) := rfl

theorem applyOp_addCom_requests (db : DB) (t : DateTime) (rid : Nat)
    (x : String) (p : Option String) (a : String) :
    (applyOp db (Op.addCom t rid x p a)).requests = db.requests := by
  simp only [applyOp, add_comment]
  by_cases h : db.requests.any (fun r => r.id == rid) = true
  · simp [h]
  · simp [h]

theorem applyUpd_fields (now : DateTime) (s : String) (m : Option String) (r : Req) :
    (applyStatusUpdate now s m r).id = r.id
    ∧ (applyStatusUpdate now s m r).created_date = r.created_date
    ∧ (applyStatusUpdate now s m r).completion_date
        = (if completingStatus s then some (DateStr.valid now) else r.completion_date) := by
  unfold applyStatusUpdate completingStatus
  by_cases hb : (s == "Готова к выдаче" || s == "Завершена") = true
  · by_cases hm2 : strTruthy m = true <;> simp [hb, hm2]
  · by_cases hm2 : strTruthy m = true <;> simp [hb, hm2]

theorem runOps_inv (ops : List Op) :
    (runOps ops).requests.length = countAdds ops
    ∧ (∀ k, ∀ h : k < (runOps ops).requests.length,
        ((runOps ops).requests.get ⟨k, h⟩).id = k + 1)
    ∧ (∀ k, ∀ h : k < (runOps ops).requests.length,
        ((runOps ops).requests.get ⟨k, h⟩).completion_date.isSome
          = setsCompletion ops (k + 1)) := by
  induction ops using List.reverseRecOn with
  | nil =>
      refine ⟨rfl, ?_, ?_⟩
      · intro k h
        exact absurd h (by simp [runOps, emptyDB])
      · intro k h
        exact absurd h (by simp [runOps, emptyDB])
  | append_singleton ops op ih =>
      obtain ⟨ihlen, ihid, ihcomp⟩ := ih
      cases op with
      | addReq t a b c d e f =>
          have hreq : (runOps (ops ++ [Op.addReq t a b c d e f])).requests
              = (runOps ops).requests ++ [newRequest (runOps ops) t a b c d e f] := by
            rw [runOps_concat, applyOp_addReq_requests]
          have hlen : (runOps (ops ++ [Op.addReq t a b c d e f])).requests.length
              = countAdds (ops ++ [Op.addReq t a b c d e f]) := by
            rw [hreq, List.length_append, ihlen, countAdds_append]
            rfl
          refine ⟨hlen, ?_, ?_⟩
          · intro k h
            have hk : k < (runOps ops).requests.length + 1 := by
              rw [hreq, List.length_append] at h
              simpa using h
            rcases Nat.lt_or_ge k (runOps ops).requests.length with hlt | hge
            · have : ((runOps (ops ++ [Op.addReq t a b c d e f])).requests.get ⟨k, h⟩)
                  = (runOps ops).requests.get ⟨k, hlt⟩ := by
                simp only [hreq, List.get_eq_getElem]
                exact List.getElem_append_left hlt
              rw [this]
              exact ihid k hlt
            · have hkeq : k = (runOps ops).requests.length := by omega
              have : ((runOps (ops ++ [Op.addReq t a b c d e f])).requests.get ⟨k, h⟩)
                  = newRequest (runOps ops) t a b c d e f := by
                simp only [hreq, List.get_eq_getElem]
                rw [List.getElem_append_right hge]
                simp [hkeq]
              rw [this, hkeq]
              rfl
          · intro k h
            have hsets : setsCompletion (ops ++ [Op.addReq t a b c d e f]) (k + 1)
                = (setsCompletion ops (k + 1)
                    || setsCompletionAux [Op.addReq t a b c d e f] (countAdds ops) (k + 1)) := by
              rw [setsCompletion, setsCompletionAux_append]
              rfl
            have haux : setsCompletionAux [Op.addReq t a b c d e f] (countAdds ops) (k + 1)
                = false := rfl
            rcases Nat.lt_or_ge k (runOps ops).requests.length with hlt | hge
            · have : ((runOps (ops ++ [Op.addReq t a b c d e f])).requests.get ⟨k, h⟩)
                  = (runOps ops).requests.get ⟨k, hlt⟩ := by
                simp only [hreq, List.get_eq_getElem]
                exact List.getElem_append_left hlt
              rw [this, hsets, haux, Bool.or_false]
              exact ihcomp k hlt
            · have hkeq : k = (runOps ops).requests.length := by
                rw [hreq, List.length_append] at h
                simp at h
                omega
              have hget : ((runOps (ops ++ [Op.addReq t a b c d e f])).requests.get ⟨k, h⟩)
                  = newRequest (runOps ops) t a b c d e f := by
                simp only [hreq, List.get_eq_getElem]
                rw [List.getElem_append_right hge]
                simp [hkeq]
              have hfalse : setsCompletion ops (k + 1) = false := by
                refine setsCompletionAux_false ops 0 (k + 1) ?_
                rw [hkeq, ihlen]
                omega
              rw [hget, hsets, haux, hfalse]
              rfl
      | updStatus t rid s m =>
          have hreq : (runOps (ops ++ [Op.updStatus t rid s m])).requests
              = (runOps ops).requests.map
                  (fun r => if r.id = rid then applyStatusUpdate t s m r else r) := by
            rw [runOps_concat, applyOp_updStatus_requests]
          have hlen : (runOps (ops ++ [Op.updStatus t rid s m])).requests.length
              = countAdds (ops ++ [Op.updStatus t rid s m]) := by
            rw [hreq, List.length_map, ihlen, countAdds_append]
            rfl
          have hget : ∀ k, ∀ h : k < (runOps (ops ++ [Op.updStatus t rid s m])).requests.length,
              ∃ h2 : k < (runOps ops).requests.length,
                ((runOps (ops ++ [Op.updStatus t rid s m])).requests.get ⟨k, h⟩)
                  = (fun r => if r.id = rid then applyStatusUpdate t s m r else r)
                      ((runOps ops).requests.get ⟨k, h2⟩) := by
            intro k h
            have h2 : k < (runOps ops).requests.length := by
              rw [hreq, List.length_map] at h
              exact h
            refine ⟨h2, ?_⟩
            simp only [hreq, List.get_eq_getElem]
            exact List.getElem_map _
          have hsets : ∀ k, setsCompletion (ops ++ [Op.updStatus t rid s m]) (k + 1)
              = (setsCompletion ops (k + 1)
                  || (rid == k + 1 && decide (k + 1 ≤ countAdds ops) && completingStatus s)) := by
            intro k
            rw [setsCompletion, setsCompletionAux_append]
            simp [setsCompletion, setsCompletionAux]
          refine ⟨hlen, ?_, ?_⟩
          · intro k h
            obtain ⟨h2, hg⟩ := hget k h
            rw [hg]
            by_cases hid : ((runOps ops).requests.get ⟨k, h2⟩).id = rid
            · simp only [hid, if_true]
              rw [(applyUpd_fields t s m _).1]
              exact ihid k h2
            · simp only [hid, if_false]
              exact ihid k h2
          · intro k h
            obtain ⟨h2, hg⟩ := hget k h
            rw [hg, hsets k]
            by_cases hid : ((runOps ops).requests.get ⟨k, h2⟩).id = rid
            · have hrid : rid = k + 1 := by
                rw [← hid]
                exact ihid k h2
              have hle : k + 1 ≤ countAdds ops := by
                rw [← ihlen]
                omega
              simp only [hid, if_true]
              rw [(applyUpd_fields t s m _).2.2]
              cases hcs : completingStatus s
              · simp only [Bool.false_eq_true, if_false]
                rw [ihcomp k h2]
                simp
              · have hbeq : (rid == k + 1) = true := by
                  simp [hrid]
                simp [hbeq, hle]
            · have hrid : (rid == k + 1) = false := by
                have hk1 : ((runOps ops).requests.get ⟨k, h2⟩).id = k + 1 := ihid k h2
                rw [hk1] at hid
                simp [Ne.symm hid]
              simp only [hid, if_false]
              rw [ihcomp k h2]
              simp [hrid]
      | extDeadline t rid nd =>
          have hreq : (runOps (ops ++ [Op.extDeadline t rid nd])).requests
              = (runOps ops).requests.map
                  (fun r => if r.id = rid then
                    { r with deadline := some nd, updated_date := some (DateStr.valid t) }
                  else r) := by
            rw [runOps_concat, applyOp_extDeadline_requests]
          have hlen : (runOps (ops ++ [Op.extDeadline t rid nd])).requests.length
              = countAdds (ops ++ [Op.extDeadline t rid nd]) := by
            rw [hreq, List.length_map, ihlen, countAdds_append]
            rfl
          have hget : ∀ k, ∀ h : k < (runOps (ops ++ [Op.extDeadline t rid nd])).requests.length,
              ∃ h2 : k < (runOps ops).requests.length,
                ((runOps (ops ++ [Op.extDeadline t rid nd])).requests.get ⟨k, h⟩)
                  = (fun r => if r.id = rid then
                      { r with deadline := some nd, updated_date := some (DateStr.valid t) }
                    else r)
                      ((runOps ops).requests.get ⟨k, h2⟩) := by
            intro k h
            have h2 : k < (runOps ops).requests.length := by
              rw [hreq, List.length_map] at h
              exact h
            refine ⟨h2, ?_⟩
            simp only [hreq, List.get_eq_getElem]
            exact List.getElem_map _
          have hsets : ∀ k, setsCompletion (ops ++ [Op.extDeadline t rid nd]) (k + 1)
              = setsCompletion ops (k + 1) := by
            intro k
            rw [setsCompletion, setsCompletionAux_append]
            simp [setsCompletion, setsCompletionAux]
          refine ⟨hlen, ?_, ?_⟩
          · intro k h
            obtain ⟨h2, hg⟩ := hget k h
            rw [hg]
            by_cases hid : ((runOps ops).requests.get ⟨k, h2⟩).id = rid
            · simp only [hid, if_true]
              rw [← hid]
              exact ihid k h2
            · simp only [hid, if_false]
              exact ihid k h2
          · intro k h
            obtain ⟨h2, hg⟩ := hget k h
            rw [hg, hsets k]
            by_cases hid : ((runOps ops).requests.get ⟨k, h2⟩).id = rid
            · simp only [hid, if_true]
              exact ihcomp k h2
            · simp only [hid, if_false]
              exact ihcomp k h2
      | addCom t rid x p a =>
          have hreq : (runOps (ops ++ [Op.addCom t rid x p a])).requests
              = (runOps ops).requests := by
            rw [runOps_concat, applyOp_addCom_requests]
          have hsets : ∀ k, setsCompletion (ops ++ [Op.addCom t rid x p a]) (k + 1)
              = setsCompletion ops (k + 1) := by
            intro k
            rw [setsCompletion, setsCompletionAux_append]
            simp [setsCompletion, setsCompletionAux]
          have hlen : (runOps (ops ++ [Op.addCom t rid x p a])).requests.length
              = countAdds (ops ++ [Op.addCom t rid x p a]) := by
            rw [hreq, ihlen, countAdds_append]
            rfl
          refine ⟨hlen, ?_, ?_⟩
          · intro k h
            have h2 : k < (runOps ops).requests.length := by
              rw [hreq] at h
              exact h
            have hgeq := List.get_of_eq hreq (⟨k, h⟩ : Fin _)
            rw [hgeq]
            exact ihid k h2
          · intro k h
            have h2 : k < (runOps ops).requests.length := by
              rw [hreq] at h
              exact h
            have hgeq := List.get_of_eq hreq (⟨k, h⟩ : Fin _)
            rw [hgeq, hsets k]
            exact ihcomp k h2

theorem runOps_completion (ops : List Op) :
    ∀ r ∈ (runOps ops).requests,
      r.completion_date.isSome = setsCompletion ops r.id := by
  intro r hr
  obtain ⟨⟨k, hk⟩, hget⟩ := List.mem_iff_get.mp hr
  obtain ⟨hlen, hid, hcomp⟩ := runOps_inv ops
  rw [← hget]
  have h1 := hid k hk
  have h2 := hcomp k hk
  rw [h1]
  exact h2

theorem runOps_dates :
    ∀ ops : List Op, opsTimesSorted ops →
      ∀ r ∈ (runOps ops).requests,
        (∃ c, r.created_date = DateStr.valid c ∧ ∃ op0 ∈ ops, Op.time op0 = c)
        ∧ (∀ d, r.completion_date = some d →
            ∃ f, d = DateStr.valid f ∧ (∃ op0 ∈ ops, Op.time op0 = f)
              ∧ ∀ c, r.created_date = DateStr.valid c →
                  epochSeconds c ≤ epochSeconds f) := by
  intro ops
  induction ops using List.reverseRecOn with
  | nil =>
      intro _ r hr
      exact absurd hr (by simp [runOps, emptyDB])
  | append_singleton ops op ih =>
      intro hs r hr
      obtain ⟨hs0, _, hrel⟩ := List.pairwise_append.mp hs
      have hrel2 : ∀ a ∈ ops, epochSeconds (Op.time a) ≤ epochSeconds (Op.time op) :=
        fun a ha => hrel a ha op (List.mem_singleton_self op)
      rw [runOps_concat] at hr
      cases op with
      | addReq t a b c d e f =>
          rw [applyOp_addReq_requests] at hr
          rcases List.mem_append.mp hr with hold | hnew
          · obtain ⟨⟨c0, hc0, op0, hop0, ht0⟩, hcompl⟩ := ih hs0 r hold
            refine ⟨⟨c0, hc0, op0, List.mem_append_left _ hop0, ht0⟩, ?_⟩
            intro d hd
            obtain ⟨f0, hf0, ⟨op1, hop1, ht1⟩, hle⟩ := hcompl d hd
            exact ⟨f0, hf0, ⟨op1, List.mem_append_left _ hop1, ht1⟩, hle⟩
          · rw [List.mem_singleton] at hnew
            subst hnew
            refine ⟨⟨t, rfl, Op.addReq t a b c d e f,
              List.mem_append_right _ (List.mem_singleton_self _), rfl⟩, ?_⟩
            intro d hd
            simp [newRequest] at hd
      | updStatus t rid s m =>
          rw [applyOp_updStatus_requests] at hr
          obtain ⟨r0, hr0, hfr⟩ := List.mem_map.mp hr
          obtain ⟨⟨c0, hc0, op0, hop0, ht0⟩, hcompl⟩ := ih hs0 r0 hr0
          by_cases hid : r0.id = rid
          · rw [if_pos hid] at hfr
            subst hfr
            obtain ⟨_, hcr, hcm⟩ := applyUpd_fields t s m r0
            refine ⟨⟨c0, by rw [hcr]; exact hc0,
              op0, List.mem_append_left _ hop0, ht0⟩, ?_⟩
            intro d hd
            rw [hcm] at hd
            cases hcs : completingStatus s
            · rw [hcs] at hd
              simp only [Bool.false_eq_true, if_false] at hd
              obtain ⟨f0, hf0, ⟨op1, hop1, ht1⟩, hle⟩ := hcompl d hd
              refine ⟨f0, hf0, ⟨op1, List.mem_append_left _ hop1, ht1⟩, ?_⟩
              intro c1 hc1
              rw [hcr] at hc1
              exact hle c1 hc1
            · rw [hcs] at hd
              simp only [if_true, Option.some.injEq] at hd
              refine ⟨t, hd.symm, ⟨Op.updStatus t rid s m,
                List.mem_append_right _ (List.mem_singleton_self _), rfl⟩, ?_⟩
              intro c1 hc1
              rw [hcr] at hc1
              rw [hc1] at hc0
              cases hc0
              have := hrel2 op0 hop0
              rw [ht0] at this
              exact this
          · rw [if_neg hid] at hfr
            subst hfr
            refine ⟨⟨c0, hc0, op0, List.mem_append_left _ hop0, ht0⟩, ?_⟩
            intro d hd
            obtain ⟨f0, hf0, ⟨op1, hop1, ht1⟩, hle⟩ := hcompl d hd
            exact ⟨f0, hf0, ⟨op1, List.mem_append_left _ hop1, ht1⟩, hle⟩
      | extDeadline t rid nd =>
          rw [applyOp_extDeadline_requests] at hr
          obtain ⟨r0, hr0, hfr⟩ := List.mem_map.mp hr
          obtain ⟨⟨c0, hc0, op0, hop0, ht0⟩, hcompl⟩ := ih hs0 r0 hr0
          have hcarry : (∃ c, r.created_date = DateStr.valid c
                ∧ ∃ op1 ∈ ops ++ [Op.extDeadline t rid nd], Op.time op1 = c)
              ∧ (∀ d, r.completion_date = some d →
                  ∃ f, d = DateStr.valid f
                    ∧ (∃ op1 ∈ ops ++ [Op.extDeadline t rid nd], Op.time op1 = f)
                    ∧ ∀ c, r.created_date = DateStr.valid c →
                        epochSeconds c ≤ epochSeconds f) := by
            have hcr : r.created_date = r0.created_date := by
              rw [← hfr]
              by_cases hid : r0.id = rid
              · rw [if_pos hid]
              · rw [if_neg hid]
            have hcm : r.completion_date = r0.completion_date := by
              rw [← hfr]
              by_cases hid : r0.id = rid
              · rw [if_pos hid]
              · rw [if_neg hid]
            refine ⟨⟨c0, by rw [hcr]; exact hc0,
              op0, List.mem_append_left _ hop0, ht0⟩, ?_⟩
            intro d hd
            rw [hcm] at hd
            obtain ⟨f0, hf0, ⟨op1, hop1, ht1⟩, hle⟩ := hcompl d hd
            refine ⟨f0, hf0, ⟨op1, List.mem_append_left _ hop1, ht1⟩, ?_⟩
            intro c1 hc1
            rw [hcr] at hc1
            exact hle c1 hc1
          exact hcarry
      | addCom t rid x p a =>
          rw [applyOp_addCom_requests] at hr
          obtain ⟨⟨c0, hc0, op0, hop0, ht0⟩, hcompl⟩ := ih hs0 r hr
          refine ⟨⟨c0, hc0, op0, List.mem_append_left _ hop0, ht0⟩, ?_⟩
          intro d hd
          obtain ⟨f0, hf0, ⟨op1, hop1, ht1⟩, hle⟩ := hcompl d hd
          exact ⟨f0, hf0, ⟨op1, List.mem_append_left _ hop1, ht1⟩, hle⟩

/-- C5: for every trace of repository operations from the empty store, a
request's completion_date is non-null exactly when some
`update_request_status` call targeting its row (after the row existed) set
status "Готова к выдаче" or "Завершена"; once non-null it stays non-null
under every further trace extension; and when the trace's clock is
nondecreasing, a stored completion stamp is a well-formed timestamp at or
after the request's created_date. -/
theorem C5_completion_invariant (ops : List Op) :
    (∀ r ∈ (runOps ops).requests, r.completion_date.isSome = setsCompletion ops r.id)
    ∧ (∀ extra : List Op, ∀ r ∈ (runOps ops).requests,
        r.completion_date.isSome = true →
        ∀ r2 ∈ (runOps (ops ++ extra)).requests, r2.id = r.id →
          r2.completion_date.isSome = true)
    ∧ (opsTimesSorted ops →
        ∀ r ∈ (runOps ops).requests, ∀ d, r.completion_date = some d →
          ∃ f c, d = DateStr.valid f ∧ r.created_date = DateStr.valid c
            ∧ epochSeconds c ≤ epochSeconds f) := by
  refine ⟨runOps_completion ops, ?_, ?_⟩
  · intro extra r hr hsome r2 hr2 hid2
    have h1 : setsCompletion ops r.id = true := by
      rw [← runOps_completion ops r hr]
      exact hsome
    have h2 : setsCompletion (ops ++ extra) r.id = true := by
      rw [setsCompletion, setsCompletionAux_append]
      rw [setsCompletion] at h1
      simp [h1]
    rw [runOps_completion (ops ++ extra) r2 hr2, hid2]
    exact h2
  · intro hs r hr d hd
    obtain ⟨⟨c0, hc0, _⟩, hcompl⟩ := runOps_dates ops hs r hr
    obtain ⟨f0, hf0, _, hle⟩ := hcompl d hd
    exact ⟨f0, c0, hf0, hc0, hle c0 hc0⟩

/-- C5 witness: on the two-step trace that creates one request and then
completes it, the resulting row is exactly the fixture request, its
completion flag agrees with `setsCompletion`, the clock is nondecreasing,
and the stamped completion timestamp is at or after creation. -/
theorem C5_witness :
    reqDone ∈ (runOps ops0).requests
    ∧ reqDone.completion_date.isSome = setsCompletion ops0 reqDone.id
    ∧ opsTimesSorted ops0
    ∧ reqDone.completion_date = some (DateStr.valid dtDone)
    ∧ ∃ f c, DateStr.valid dtDone = DateStr.valid f
        ∧ reqDone.created_date = DateStr.valid c
        ∧ epochSeconds c ≤ epochSeconds f := by
  have hsorted : opsTimesSorted ops0 := by decide
  refine ⟨by decide, (C5_completion_invariant ops0).1 reqDone (by decide), hsorted,
    by decide, (C5_completion_invariant ops0).2.2 hsorted reqDone (by decide)
      (DateStr.valid dtDone) (by decide)⟩

end SC
